import Mathlib

/-!
Verification of the cherry reinforcement-learning example scripts
(`examples/actor_critic_cartpole.py`, `examples/ppo_pybullet.py`).

The scripts call the cherry library's reward utilities
(`cherry.rewards.discount_rewards`, `cherry.rewards.generalized_advantage`,
`cherry.utils.normalize`) and its `ExperienceReplay` buffer. Those library
modules are not part of the example sources, so they are modelled from the
specification; the PPO `update` glue is embedded from
`examples/ppo_pybullet.py` directly. Scalars (rewards, values, states,
actions) are modelled as rationals.
-/

/-- Modelled from the spec: `discount(gamma, rewards, dones)`
(called as `cherry.rewards.discount_rewards` in
`examples/actor_critic_cartpole.py`). The running return of the step after
index `i` is the head of the already-computed suffix (0 past the end); a
true done flag resets it to 0 before folding in `reward[i]`. -/
def discount_rewards (γ : ℚ) (rs : List ℚ) (ds : List Bool) : List ℚ :=
  match rs, ds with
  | r :: rs, d :: ds =>
      let rest := discount_rewards γ rs ds
      (r + γ * (if d then 0 else rest.getD 0 0)) :: rest
  | _, _ => []
termination_by structural rs

/-- Reverse-order traversal from the spec's words, kept verbatim as an
accumulator pass: returns the pair (running return `G`, outputs so far). -/
def discountSpecGo (γ : ℚ) : List (ℚ × Bool) → ℚ × List ℚ
  | [] => (0, [])
  | (r, d) :: rest =>
      let acc := discountSpecGo γ rest
      let g := r + γ * (if d then 0 else acc.1)
      (g, g :: acc.2)

/-- The spec's algorithm for discounted returns: a single reverse-order
traversal over the zipped reward/done sequence maintaining a running
return `G`. -/
def discountSpec (γ : ℚ) (rs : List ℚ) (ds : List Bool) : List ℚ :=
  (discountSpecGo γ (rs.zip ds)).2

/-- Modelled from the spec: `gae(gamma, tau, rewards, dones, values,
bootstrap_value)` (called as `cherry.rewards.generalized_advantage` in
`examples/ppo_pybullet.py`). The "next value" seen at index `i` is the head
of the remaining value list, or the bootstrap value at the end; the running
advantage of the later step is the head of the already-computed suffix. -/
def generalized_advantage (γ τ : ℚ) (rs : List ℚ) (ds : List Bool) (vs : List ℚ)
    (b : ℚ) : List ℚ :=
  match rs, ds, vs with
  | r :: rs, d :: ds, v :: vs =>
      let rest := generalized_advantage γ τ rs ds vs b
      let vnext := vs.getD 0 b
      let δ := r + γ * vnext * (if d then 0 else 1) - v
      (δ + γ * τ * (if d then 0 else 1) * rest.getD 0 0) :: rest
  | _, _, _ => []
termination_by structural rs

/-- Reverse traversal from the spec's words, kept verbatim as an accumulator
pass over the zipped input: the state is (running advantage `A`,
next value `V_next`, outputs so far), with `V_next` initialized to the
bootstrap value. -/
def gaeSpecGo (γ τ b : ℚ) : List (ℚ × Bool × ℚ) → ℚ × ℚ × List ℚ
  | [] => (0, b, [])
  | (r, d, v) :: rest =>
      let acc := gaeSpecGo γ τ b rest
      let δ := r + γ * acc.2.1 * (if d then 0 else 1) - v
      let A := δ + γ * τ * (if d then 0 else 1) * acc.1
      (A, v, A :: acc.2.2)

/-- The spec's algorithm for generalized advantage estimation: one reverse
traversal maintaining `A` and `V_next`. -/
def gaeSpec (γ τ : ℚ) (rs : List ℚ) (ds : List Bool) (vs : List ℚ) (b : ℚ) :
    List ℚ :=
  (gaeSpecGo γ τ b (rs.zip (ds.zip vs))).2.2

/-- Modelled from the spec: the auxiliary info attached to each transition,
as a fixed-schema record of the scalars the scripts store
(`log_prob`, `value`, and the written-back `advantage`). -/
structure Info where
  log_prob : ℚ
  value : ℚ
  advantage : ℚ
deriving DecidableEq

instance : Inhabited Info :=
  ⟨⟨0, 0, 0⟩⟩

/-- One interaction step: state, action, reward, next state, done flag and
auxiliary info. States and actions are opaque payloads here, modelled as
rationals. -/
structure Transition where
  state : ℚ
  action : ℚ
  reward : ℚ
  next_state : ℚ
  done : Bool
  info : Info
deriving DecidableEq

/-- Modelled from the spec: cherry's `ExperienceReplay` buffer, holding the
parallel index-aligned field sequences of the stored Transitions. -/
structure ExperienceReplay where
  states : List ℚ
  actions : List ℚ
  rewards : List ℚ
  next_states : List ℚ
  dones : List Bool
  infos : List Info
deriving DecidableEq

/-- Number of stored Transitions (`len(replay)`). -/
def ExperienceReplay.length (r : ExperienceReplay) : ℕ :=
  r.states.length

/-- A freshly constructed buffer (`ch.ExperienceReplay()`). -/
def ExperienceReplay.init : ExperienceReplay :=
  ⟨[], [], [], [], [], []⟩

/-- Modelled from the spec: `empty()` clears all stored Transitions. -/
def ExperienceReplay.empty (_r : ExperienceReplay) : ExperienceReplay :=
  ExperienceReplay.init

/-- Modelled from the spec: `add(state, action, reward, next_state, done,
info)` appends one Transition to every parallel field sequence. -/
def ExperienceReplay.add (r : ExperienceReplay) (s a rew ns : ℚ) (d : Bool)
    (i : Info) : ExperienceReplay :=
  ⟨r.states ++ [s], r.actions ++ [a], r.rewards ++ [rew],
    r.next_states ++ [ns], r.dones ++ [d], r.infos ++ [i]⟩

/-- The `values` accessor: the per-step value estimates cached in the info
records (`replay.values`). -/
def ExperienceReplay.values (r : ExperienceReplay) : List ℚ :=
  r.infos.map Info.value

/-- The `log_probs` accessor (`replay.log_probs`). -/
def ExperienceReplay.log_probs (r : ExperienceReplay) : List ℚ :=
  r.infos.map Info.log_prob

/-- The Transition at index `i`, assembled from the parallel fields. -/
def ExperienceReplay.transition (r : ExperienceReplay) (i : ℕ) : Transition :=
  ⟨r.states.getD i 0, r.actions.getD i 0, r.rewards.getD i 0,
    r.next_states.getD i 0, r.dones.getD i false, r.infos.getD i default⟩

/-- A partial overwrite of the info record: fields the update callback did
not mention stay untouched. -/
structure InfoUpdate where
  log_prob : Option ℚ
  value : Option ℚ
  advantage : Option ℚ

/-- The fields an `update` callback selected for replacement; `none` means
the field was not returned and keeps its old value. -/
structure UpdateResult where
  state : Option ℚ
  action : Option ℚ
  reward : Option ℚ
  next_state : Option ℚ
  done : Option Bool
  info : Option InfoUpdate

/-- Merge a partial info overwrite into an existing info record. -/
def applyInfoUpdate (old : Info) : Option InfoUpdate → Info
  | none => old
  | some u =>
      ⟨u.log_prob.getD old.log_prob, u.value.getD old.value,
        u.advantage.getD old.advantage⟩

/-- Modelled from the spec: `update(fn)` replaces, at every index `i`, the
fields selected by `fn i transition_i`, leaving unselected fields unchanged
and preserving index alignment. -/
def ExperienceReplay.update (r : ExperienceReplay)
    (fn : ℕ → Transition → UpdateResult) : ExperienceReplay :=
  ⟨(List.range r.length).map
      (fun i => (fn i (r.transition i)).state.getD (r.states.getD i 0)),
    (List.range r.length).map
      (fun i => (fn i (r.transition i)).action.getD (r.actions.getD i 0)),
    (List.range r.length).map
      (fun i => (fn i (r.transition i)).reward.getD (r.rewards.getD i 0)),
    (List.range r.length).map
      (fun i => (fn i (r.transition i)).next_state.getD (r.next_states.getD i 0)),
    (List.range r.length).map
      (fun i => (fn i (r.transition i)).done.getD (r.dones.getD i false)),
    (List.range r.length).map
      (fun i => applyInfoUpdate (r.infos.getD i default) (fn i (r.transition i)).info)⟩

/-- The parallel field sequences all have the buffer's transition count as
their length (index alignment invariant). -/
def ExperienceReplay.Aligned (r : ExperienceReplay) : Prop :=
  r.actions.length = r.states.length ∧ r.rewards.length = r.states.length ∧
    r.next_states.length = r.states.length ∧ r.dones.length = r.states.length ∧
    r.infos.length = r.states.length

/-- The buffer operations a training loop performs between construction and
destruction. -/
inductive BufOp where
  | add (s a rew ns : ℚ) (d : Bool) (i : Info)
  | update (fn : ℕ → Transition → UpdateResult)
  | empty

/-- Execute one buffer operation. -/
def BufOp.exec (r : ExperienceReplay) : BufOp → ExperienceReplay
  | .add s a rew ns d i => r.add s a rew ns d i
  | .update fn => r.update fn
  | .empty => r.empty

/-- Execute a sequence of buffer operations, oldest first. -/
def execOps (ops : List BufOp) (r : ExperienceReplay) : ExperienceReplay :=
  ops.foldl BufOp.exec r

/-- Error raised by buffer operations. -/
inductive ReplayError where
  | emptyBuffer
deriving DecidableEq

/-- A sampled minibatch, bundled as parallel sequences for vectorized
consumption. -/
structure Batch where
  states : List ℚ
  actions : List ℚ
  rewards : List ℚ
  log_probs : List ℚ
  values : List ℚ
  advantages : List ℚ
deriving DecidableEq

/-- Modelled from the spec: `sample(batch_size)` draws a batch of stored
Transitions with replacement through the injected random index source
`pick`, bundling them as parallel sequences; it fails with `EmptyBuffer` on
a buffer with zero Transitions and never mutates the buffer (it returns
only the batch). -/
def ExperienceReplay.sample (r : ExperienceReplay) (batch_size : ℕ)
    (pick : ℕ → ℕ) : Except ReplayError Batch :=
  if r.length = 0 then .error .emptyBuffer
  else
    let idxs := (List.range batch_size).map (fun k => pick k % r.length)
    .ok ⟨idxs.map (fun i => r.states.getD i 0),
      idxs.map (fun i => r.actions.getD i 0),
      idxs.map (fun i => r.rewards.getD i 0),
      idxs.map (fun i => (r.infos.getD i default).log_prob),
      idxs.map (fun i => (r.infos.getD i default).value),
      idxs.map (fun i => (r.infos.getD i default).advantage)⟩

/-- Modelled from the spec: `cherry.utils.normalize(xs, epsilon)` subtracts
the mean and divides by (standard deviation + epsilon). The square root on
the scalars is not rational-valued, so it is passed in as the parameter
`sqrt`; a sequence of zero or one elements is returned unchanged (the
spec's degenerate-normalization policy). -/
def utils.normalize (sqrt : ℚ → ℚ) (ε : ℚ) (xs : List ℚ) : List ℚ :=
  if xs.length ≤ 1 then xs
  else
    let m := xs.sum / xs.length
    let sd := sqrt ((xs.map (fun x => (x - m) ^ 2)).sum / xs.length)
    xs.map (fun x => (x - m) / (sd + ε))

/-- The advantage/reward write-back of `update` in
`examples/ppo_pybullet.py`: compute GAE over the whole buffer, normalize it,
add the cached values to obtain the reward targets, and write both back into
the buffer through `replay.update`. -/
def ppoWriteBack (γ τ ε : ℚ) (sqrt : ℚ → ℚ) (replay : ExperienceReplay)
    (next_state_value : ℚ) : ExperienceReplay :=
  let advantages := utils.normalize sqrt ε
    (generalized_advantage γ τ replay.rewards replay.dones replay.values
      next_state_value)
  let rewards := List.zipWith (· + ·) advantages replay.values
  replay.update (fun i _sars =>
    ⟨none, none, some (rewards.getD i 0), none, none,
      some ⟨none, none, some (advantages.getD i 0)⟩⟩)

/-- The entry of `update` in `examples/ppo_pybullet.py`: it first reads
`replay.next_states[-1]` to bootstrap (failing on an empty buffer, modelled
as `none`), evaluates the critic `vf` there, and then performs the
advantage/reward write-back. -/
def ppoUpdate (γ τ ε : ℚ) (sqrt vf : ℚ → ℚ) (replay : ExperienceReplay) :
    Option ExperienceReplay :=
  match replay.next_states.getLast? with
  | none => none
  | some s => some (ppoWriteBack γ τ ε sqrt replay (vf s))

theorem discountSpecGo_fst (γ : ℚ) (l : List (ℚ × Bool)) :
    (discountSpecGo γ l).1 = (discountSpecGo γ l).2.getD 0 0 := by
  cases l with
  | nil => simp [discountSpecGo]
  | cons p rest => cases p; simp [discountSpecGo]

theorem discount_rewards_eq_discountSpec (γ : ℚ) (rs : List ℚ) (ds : List Bool) :
    discount_rewards γ rs ds = discountSpec γ rs ds := by
  induction rs generalizing ds with
  | nil => cases ds <;> simp [discount_rewards, discountSpec, discountSpecGo]
  | cons r rs ih =>
      cases ds with
      | nil => simp [discount_rewards, discountSpec, discountSpecGo]
      | cons d ds =>
          simp only [discount_rewards, discountSpec, List.zip_cons_cons,
            discountSpecGo, discountSpecGo_fst]
          rw [ih ds]
          rfl

/-- C1: `discount_rewards` is exactly the spec's single reverse-order
traversal with running return `G` (reset to 0 at a true done flag before
folding in the reward), and in particular
`discount(0.5, [1,1,1], [false,false,true]) = [1.75, 1.5, 1.0]`. -/
theorem discount_rewards_spec :
    (∀ (γ : ℚ) (rs : List ℚ) (ds : List Bool),
        discount_rewards γ rs ds = discountSpec γ rs ds) ∧
    discount_rewards (1/2) [1, 1, 1] [false, false, true] = [7/4, 3/2, 1] := by
  refine ⟨discount_rewards_eq_discountSpec, ?_⟩
  norm_num [discount_rewards]

theorem gaeSpecGo_fst (γ τ b : ℚ) (l : List (ℚ × Bool × ℚ)) :
    (gaeSpecGo γ τ b l).1 = (gaeSpecGo γ τ b l).2.2.getD 0 0 := by
  cases l with
  | nil => simp [gaeSpecGo]
  | cons p rest => obtain ⟨r, d, v⟩ := p; simp [gaeSpecGo]

theorem gaeSpecGo_vnext (γ τ b : ℚ) (l : List (ℚ × Bool × ℚ)) :
    (gaeSpecGo γ τ b l).2.1 = (l.map (fun p => p.2.2)).getD 0 b := by
  cases l with
  | nil => simp [gaeSpecGo]
  | cons p rest => obtain ⟨r, d, v⟩ := p; simp [gaeSpecGo]

theorem length_generalized_advantage (γ τ b : ℚ) (rs : List ℚ) (ds : List Bool)
    (vs : List ℚ) :
    (generalized_advantage γ τ rs ds vs b).length =
      min rs.length (min ds.length vs.length) := by
  induction rs generalizing ds vs with
  | nil => simp [generalized_advantage]
  | cons r rs ih =>
      cases ds with
      | nil => simp [generalized_advantage]
      | cons d ds =>
          cases vs with
          | nil => simp [generalized_advantage]
          | cons v vs =>
              simp only [generalized_advantage, List.length_cons, ih]
              omega

theorem gaeSpec_cons (γ τ b r v : ℚ) (d : Bool) (rs : List ℚ) (ds : List Bool)
    (vs : List ℚ) :
    gaeSpec γ τ (r :: rs) (d :: ds) (v :: vs) b =
      ((r + γ * (gaeSpecGo γ τ b (rs.zip (ds.zip vs))).2.1 * (if d then 0 else 1)
          - v)
        + γ * τ * (if d then 0 else 1) * (gaeSpec γ τ rs ds vs b).getD 0 0)
        :: gaeSpec γ τ rs ds vs b := by
  simp only [gaeSpec, List.zip_cons_cons, gaeSpecGo, gaeSpecGo_fst]
  rfl

theorem zip3_value_head_getD (rs : List ℚ) (ds : List Bool) (vs : List ℚ) (b : ℚ)
    (h1 : rs.length = ds.length) (h2 : ds.length = vs.length) :
    ((rs.zip (ds.zip vs)).map (fun p => p.2.2)).getD 0 b = vs.getD 0 b := by
  cases rs with
  | nil =>
      have hvs : vs = [] := by
        cases vs with
        | nil => rfl
        | cons v' vs' =>
            simp only [List.length_nil, List.length_cons] at h1 h2
            omega
      subst hvs
      simp
  | cons r' rs' =>
      cases ds with
      | nil => simp at h1
      | cons d' ds' =>
          cases vs with
          | nil => simp at h2
          | cons v' vs' => simp

theorem gae_eq_gaeSpec (γ τ b : ℚ) (rs : List ℚ) (ds : List Bool) (vs : List ℚ)
    (h1 : rs.length = ds.length) (h2 : ds.length = vs.length) :
    generalized_advantage γ τ rs ds vs b = gaeSpec γ τ rs ds vs b := by
  induction rs generalizing ds vs with
  | nil =>
      cases ds with
      | nil => cases vs <;> simp_all [generalized_advantage, gaeSpec, gaeSpecGo]
      | cons d ds => simp at h1
  | cons r rs ih =>
      cases ds with
      | nil => simp at h1
      | cons d ds =>
          cases vs with
          | nil => simp at h2
          | cons v vs =>
              have h1' : rs.length = ds.length := by simpa using h1
              have h2' : ds.length = vs.length := by simpa using h2
              have hvn : (gaeSpecGo γ τ b (rs.zip (ds.zip vs))).2.1 =
                  vs.getD 0 b := by
                rw [gaeSpecGo_vnext]
                exact zip3_value_head_getD rs ds vs b h1' h2'
              rw [gaeSpec_cons, ← ih ds vs h1' h2', hvn]
              simp only [generalized_advantage]

/-- C2: `generalized_advantage` is exactly the spec's reverse traversal with
accumulator `A` and next-value register `V_next` initialized to the bootstrap
value, producing one output per input step. -/
theorem generalized_advantage_spec (γ τ b : ℚ) (rs : List ℚ) (ds : List Bool)
    (vs : List ℚ) (h1 : rs.length = ds.length) (h2 : ds.length = vs.length) :
    generalized_advantage γ τ rs ds vs b = gaeSpec γ τ rs ds vs b ∧
      (generalized_advantage γ τ rs ds vs b).length = rs.length := by
  refine ⟨gae_eq_gaeSpec γ τ b rs ds vs h1 h2, ?_⟩
  rw [length_generalized_advantage]
  omega

/-- Witness for C2 at γ=1/2, τ=1/3, rewards [1,2], dones [false,true],
values [3,4], bootstrap 5. -/
theorem generalized_advantage_spec_witness :
    ([(1 : ℚ), 2].length = [false, true].length) ∧
    ([false, true].length = [(3 : ℚ), 4].length) ∧
    (generalized_advantage (1/2) (1/3) [1, 2] [false, true] [3, 4] 5 =
        gaeSpec (1/2) (1/3) [1, 2] [false, true] [3, 4] 5 ∧
      (generalized_advantage (1/2) (1/3) [1, 2] [false, true] [3, 4] 5).length = 2) :=
  ⟨rfl, rfl, generalized_advantage_spec (1/2) (1/3) 5 [1, 2] [false, true] [3, 4] rfl rfl⟩

theorem discount_rewards_agree_up_to_done (γ : ℚ) (ds : List Bool) :
    ∀ (rs1 rs2 : List ℚ) (j i : ℕ), rs1.length = ds.length →
      rs2.length = ds.length → ds.getD j false = true →
      (∀ k, k ≤ j → rs1.getD k 0 = rs2.getD k 0) → i ≤ j →
      (discount_rewards γ rs1 ds).getD i 0 = (discount_rewards γ rs2 ds).getD i 0 := by
  induction ds with
  | nil => intro rs1 rs2 j i _ _ hdone _ _; simp at hdone
  | cons d ds ih =>
      intro rs1 rs2 j i h1 h2 hdone hagree hij
      cases rs1 with
      | nil => simp at h1
      | cons r1 rs1 =>
          cases rs2 with
          | nil => simp at h2
          | cons r2 rs2 =>
              have h1' : rs1.length = ds.length := by simpa using h1
              have h2' : rs2.length = ds.length := by simpa using h2
              cases i with
              | zero =>
                  have hr : r1 = r2 := by simpa using hagree 0 (Nat.zero_le j)
                  simp only [discount_rewards, List.getD_cons_zero, hr]
                  cases hd : d with
                  | true => simp
                  | false =>
                      have hj : j ≠ 0 := by
                        intro hj0
                        rw [hj0, hd] at hdone
                        simp at hdone
                      obtain ⟨j', rfl⟩ := Nat.exists_eq_succ_of_ne_zero hj
                      have htail : (discount_rewards γ rs1 ds).getD 0 0 =
                          (discount_rewards γ rs2 ds).getD 0 0 := by
                        refine ih rs1 rs2 j' 0 h1' h2' ?_ ?_ (Nat.zero_le j')
                        · simpa using hdone
                        · intro k hk
                          simpa using hagree (k + 1) (Nat.succ_le_succ hk)
                      rw [htail]
              | succ i' =>
                  have hj : ∃ j', j = j' + 1 := by
                    cases j with
                    | zero => omega
                    | succ j' => exact ⟨j', rfl⟩
                  obtain ⟨j', rfl⟩ := hj
                  simp only [discount_rewards, List.getD_cons_succ]
                  refine ih rs1 rs2 j' i' h1' h2' ?_ ?_ (by omega)
                  · simpa using hdone
                  · intro k hk
                    simpa using hagree (k + 1) (Nat.succ_le_succ hk)

/-- C3: no bleed-through across an episode boundary. If `done[j]` is true and
two reward sequences agree at every index ≤ j (same dones, same γ), then the
discounted-return outputs agree at every index i < j: outputs before a true
done flag are independent of the rewards after it. -/
theorem discount_rewards_no_bleed_through (γ : ℚ) (rs1 rs2 : List ℚ)
    (ds : List Bool) (j : ℕ) (h1 : rs1.length = ds.length)
    (h2 : rs2.length = ds.length) (hdone : ds.getD j false = true)
    (hagree : ∀ k, k ≤ j → rs1.getD k 0 = rs2.getD k 0) :
    ∀ i, i < j →
      (discount_rewards γ rs1 ds).getD i 0 = (discount_rewards γ rs2 ds).getD i 0 :=
  fun i hij =>
    discount_rewards_agree_up_to_done γ ds rs1 rs2 j i h1 h2 hdone hagree
      (Nat.le_of_lt hij)

/-- Witness for C3: dones [false,true,false] with done index j = 1; the two
reward sequences [1,2,3] and [1,2,100] agree up to index 1 and differ after
it, and the outputs at index 0 coincide. -/
theorem discount_rewards_no_bleed_through_witness :
    ([(1 : ℚ), 2, 3].length = [false, true, false].length) ∧
    ([(1 : ℚ), 2, 100].length = [false, true, false].length) ∧
    ([false, true, false].getD 1 false = true) ∧
    (∀ k, k ≤ 1 → [(1 : ℚ), 2, 3].getD k 0 = [(1 : ℚ), 2, 100].getD k 0) ∧
    ((discount_rewards (1/2) [1, 2, 3] [false, true, false]).getD 0 0 =
      (discount_rewards (1/2) [1, 2, 100] [false, true, false]).getD 0 0) := by
  have hagree : ∀ k, k ≤ 1 → [(1 : ℚ), 2, 3].getD k 0 = [(1 : ℚ), 2, 100].getD k 0 := by
    intro k hk
    interval_cases k <;> rfl
  exact ⟨rfl, rfl, rfl, hagree,
    discount_rewards_no_bleed_through (1/2) [1, 2, 3] [1, 2, 100]
      [false, true, false] 1 rfl rfl rfl hagree 0 (by norm_num)⟩

/-- Counterexample to C4 as stated: with a nonzero bootstrap value and a
non-terminal final step, `gae` with τ = 1 and V ≡ 0 differs from the plain
discounted return. At γ = 1, τ = 1, rewards [1], dones [false], values [0],
bootstrap 1, `gae` yields [2] while `discount` yields [1]. -/
theorem gae_tau_one_bootstrap_counterexample :
    ¬ (generalized_advantage 1 1 [1] [false] [0] 1 =
        discount_rewards 1 [(1 : ℚ)] [false]) := by
  norm_num [generalized_advantage, discount_rewards]

/-- C4 (amended): for every γ, rewards and dones, `generalized_advantage`
with τ = 1, an all-zero value sequence and a ZERO bootstrap value coincides
with `discount_rewards γ rewards dones`. (As originally stated — for every
bootstrap value — the claim fails when the final done flag is false, since
the bootstrap is folded into the last residual.) -/
theorem gae_tau_one_zero_values_eq_discount (γ : ℚ) (rs : List ℚ)
    (ds : List Bool) (h : rs.length = ds.length) :
    generalized_advantage γ 1 rs ds (List.replicate ds.length 0) 0 =
      discount_rewards γ rs ds := by
  induction rs generalizing ds with
  | nil => cases ds <;> rfl
  | cons r rs ih =>
      cases ds with
      | nil => simp at h
      | cons d ds =>
          have h' : rs.length = ds.length := by simpa using h
          rw [List.length_cons, List.replicate_succ]
          simp only [generalized_advantage, discount_rewards]
          rw [ih ds h']
          congr 1
          have hv : (List.replicate ds.length (0 : ℚ)).getD 0 0 = 0 := by
            cases ds <;> simp
          rw [hv]
          cases d <;> simp

/-- Witness for the amended C4 at γ = 1/2, rewards [1,2], dones
[false,true]. -/
theorem gae_tau_one_zero_values_eq_discount_witness :
    ([(1 : ℚ), 2].length = [false, true].length) ∧
    generalized_advantage (1/2) 1 [1, 2] [false, true]
        (List.replicate [false, true].length 0) 0 =
      discount_rewards (1/2) [1, 2] [false, true] :=
  ⟨rfl, gae_tau_one_zero_values_eq_discount (1/2) [1, 2] [false, true] rfl⟩

/-- C5: with τ = 0, `generalized_advantage` is the one-step TD residual
sequence: output[i] = reward[i] + γ·V[i+1]·(1 − done[i]) − V[i], where the
value read one past the end is the bootstrap value. -/
theorem gae_tau_zero_td_residual (γ b : ℚ) (rs : List ℚ) (ds : List Bool)
    (vs : List ℚ) (h1 : rs.length = ds.length) (h2 : ds.length = vs.length) :
    ∀ i, i < rs.length →
      (generalized_advantage γ 0 rs ds vs b).getD i 0 =
        rs.getD i 0 + γ * vs.getD (i + 1) b * (if ds.getD i false then 0 else 1)
          - vs.getD i 0 := by
  induction rs generalizing ds vs with
  | nil => intro i hi; simp at hi
  | cons r rs ih =>
      cases ds with
      | nil => simp at h1
      | cons d ds =>
          cases vs with
          | nil => simp at h2
          | cons v vs =>
              have h1' : rs.length = ds.length := by simpa using h1
              have h2' : ds.length = vs.length := by simpa using h2
              intro i hi
              cases i with
              | zero =>
                  simp only [generalized_advantage, List.getD_cons_zero,
                    List.getD_cons_succ]
                  ring
              | succ i' =>
                  simp only [generalized_advantage, List.getD_cons_succ]
                  exact ih ds vs h1' h2' i' (by simpa using hi)

/-- Witness for C5 at γ = 1/2, rewards [1,2], dones [false,true],
values [3,4], bootstrap 5, index 0. -/
theorem gae_tau_zero_td_residual_witness :
    ([(1 : ℚ), 2].length = [false, true].length) ∧
    ([false, true].length = [(3 : ℚ), 4].length) ∧
    ((generalized_advantage (1/2) 0 [1, 2] [false, true] [3, 4] 5).getD 0 0 =
      [(1 : ℚ), 2].getD 0 0 +
        (1/2) * [(3 : ℚ), 4].getD 1 5 *
          (if [false, true].getD 0 false then 0 else 1) - [(3 : ℚ), 4].getD 0 0) :=
  ⟨rfl, rfl,
    gae_tau_zero_td_residual (1/2) 5 [1, 2] [false, true] [3, 4] rfl rfl 0
      (by norm_num)⟩


theorem getD_range_map {α : Type} (f : ℕ → α) (n i : ℕ) (d : α) (h : i < n) :
    ((List.range n).map f).getD i d = f i := by
  rw [List.getD_eq_getElem?_getD, List.getElem?_map, List.getElem?_range h]
  rfl

theorem getD_zipWith_add (as bs : List ℚ) (i : ℕ) (ha : i < as.length)
    (hb : i < bs.length) :
    (List.zipWith (· + ·) as bs).getD i 0 = as.getD i 0 + bs.getD i 0 := by
  rw [List.getD_eq_getElem?_getD, List.getD_eq_getElem?_getD,
    List.getD_eq_getElem?_getD, List.getElem?_zipWith,
    List.getElem?_eq_getElem ha, List.getElem?_eq_getElem hb]
  rfl

theorem aligned_init : ExperienceReplay.init.Aligned :=
  ⟨rfl, rfl, rfl, rfl, rfl⟩

theorem aligned_empty (r : ExperienceReplay) : r.empty.Aligned :=
  ⟨rfl, rfl, rfl, rfl, rfl⟩

theorem aligned_add (r : ExperienceReplay) (s a rew ns : ℚ) (d : Bool)
    (i : Info) (h : r.Aligned) : (r.add s a rew ns d i).Aligned := by
  obtain ⟨h1, h2, h3, h4, h5⟩ := h
  refine ⟨?_, ?_, ?_, ?_, ?_⟩ <;>
    simp [ExperienceReplay.add, h1, h2, h3, h4, h5]

theorem aligned_update (r : ExperienceReplay)
    (fn : ℕ → Transition → UpdateResult) : (r.update fn).Aligned := by
  refine ⟨?_, ?_, ?_, ?_, ?_⟩ <;> simp [ExperienceReplay.update]

theorem aligned_execOps (ops : List BufOp) :
    ∀ r : ExperienceReplay, r.Aligned → (execOps ops r).Aligned := by
  induction ops with
  | nil => intro r h; exact h
  | cons op ops ih =>
      intro r h
      show (execOps ops (BufOp.exec r op)).Aligned
      apply ih
      cases op with
      | add s a rew ns d i => exact aligned_add r s a rew ns d i h
      | update fn => exact aligned_update r fn
      | empty => exact aligned_empty r

/-- C6: after every sequence of `add`, `update` and `empty` operations on an
initially empty buffer, the parallel field sequences (states, actions,
rewards, next_states, dones, infos) all have length equal to the number of
stored Transitions and stay index-aligned. -/
theorem buffer_parallel_fields_invariant (ops : List BufOp) :
    (execOps ops ExperienceReplay.init).states.length =
        (execOps ops ExperienceReplay.init).length ∧
    (execOps ops ExperienceReplay.init).actions.length =
        (execOps ops ExperienceReplay.init).length ∧
    (execOps ops ExperienceReplay.init).rewards.length =
        (execOps ops ExperienceReplay.init).length ∧
    (execOps ops ExperienceReplay.init).next_states.length =
        (execOps ops ExperienceReplay.init).length ∧
    (execOps ops ExperienceReplay.init).dones.length =
        (execOps ops ExperienceReplay.init).length ∧
    (execOps ops ExperienceReplay.init).infos.length =
        (execOps ops ExperienceReplay.init).length := by
  obtain ⟨h1, h2, h3, h4, h5⟩ := aligned_execOps ops ExperienceReplay.init aligned_init
  exact ⟨rfl, h1, h2, h3, h4, h5⟩

/-- C7: after `update fn`, the Transition at each valid index `i` holds
exactly the field values `fn i transition_i` selected (including the info
sub-fields it selected), every unselected field keeps its previous value,
and the buffer's length and index alignment are preserved. -/
theorem update_frame_property (r : ExperienceReplay)
    (fn : ℕ → Transition → UpdateResult) (i : ℕ) (hi : i < r.length) :
    (r.update fn).length = r.length ∧ (r.update fn).Aligned ∧
    (r.update fn).states.getD i 0 =
      (fn i (r.transition i)).state.getD (r.states.getD i 0) ∧
    (r.update fn).actions.getD i 0 =
      (fn i (r.transition i)).action.getD (r.actions.getD i 0) ∧
    (r.update fn).rewards.getD i 0 =
      (fn i (r.transition i)).reward.getD (r.rewards.getD i 0) ∧
    (r.update fn).next_states.getD i 0 =
      (fn i (r.transition i)).next_state.getD (r.next_states.getD i 0) ∧
    (r.update fn).dones.getD i false =
      (fn i (r.transition i)).done.getD (r.dones.getD i false) ∧
    (r.update fn).infos.getD i default =
      applyInfoUpdate (r.infos.getD i default) (fn i (r.transition i)).info := by
  refine ⟨?_, aligned_update r fn, ?_, ?_, ?_, ?_, ?_, ?_⟩
  · simp [ExperienceReplay.update, ExperienceReplay.length]
  all_goals exact getD_range_map _ r.length i _ hi

/-- Witness for C7: a one-transition buffer and a callback selecting only
the reward and the info advantage. -/
theorem update_frame_property_witness :
    (0 < (ExperienceReplay.mk [1] [2] [3] [4] [true] [⟨5, 6, 7⟩]).length) ∧
    (((ExperienceReplay.mk [1] [2] [3] [4] [true] [⟨5, 6, 7⟩]).update
        (fun _ _ => ⟨none, none, some 9, none, none,
          some ⟨none, none, some 8⟩⟩)).length =
      (ExperienceReplay.mk [1] [2] [3] [4] [true] [⟨5, 6, 7⟩]).length ∧
    ((ExperienceReplay.mk [1] [2] [3] [4] [true] [⟨5, 6, 7⟩]).update
        (fun _ _ => ⟨none, none, some 9, none, none,
          some ⟨none, none, some 8⟩⟩)).Aligned ∧
    ((ExperienceReplay.mk [1] [2] [3] [4] [true] [⟨5, 6, 7⟩]).update
        (fun _ _ => ⟨none, none, some 9, none, none,
          some ⟨none, none, some 8⟩⟩)).states.getD 0 0 =
      ((fun _ _ => (⟨none, none, some 9, none, none,
          some ⟨none, none, some 8⟩⟩ : UpdateResult)) 0
        ((ExperienceReplay.mk [1] [2] [3] [4] [true] [⟨5, 6, 7⟩]).transition 0)).state.getD
        ((ExperienceReplay.mk [1] [2] [3] [4] [true] [⟨5, 6, 7⟩]).states.getD 0 0) ∧
    ((ExperienceReplay.mk [1] [2] [3] [4] [true] [⟨5, 6, 7⟩]).update
        (fun _ _ => ⟨none, none, some 9, none, none,
          some ⟨none, none, some 8⟩⟩)).actions.getD 0 0 =
      ((fun _ _ => (⟨none, none, some 9, none, none,
          some ⟨none, none, some 8⟩⟩ : UpdateResult)) 0
        ((ExperienceReplay.mk [1] [2] [3] [4] [true] [⟨5, 6, 7⟩]).transition 0)).action.getD
        ((ExperienceReplay.mk [1] [2] [3] [4] [true] [⟨5, 6, 7⟩]).actions.getD 0 0) ∧
    ((ExperienceReplay.mk [1] [2] [3] [4] [true] [⟨5, 6, 7⟩]).update
        (fun _ _ => ⟨none, none, some 9, none, none,
          some ⟨none, none, some 8⟩⟩)).rewards.getD 0 0 =
      ((fun _ _ => (⟨none, none, some 9, none, none,
          some ⟨none, none, some 8⟩⟩ : UpdateResult)) 0
        ((ExperienceReplay.mk [1] [2] [3] [4] [true] [⟨5, 6, 7⟩]).transition 0)).reward.getD
        ((ExperienceReplay.mk [1] [2] [3] [4] [true] [⟨5, 6, 7⟩]).rewards.getD 0 0) ∧
    ((ExperienceReplay.mk [1] [2] [3] [4] [true] [⟨5, 6, 7⟩]).update
        (fun _ _ => ⟨none, none, some 9, none, none,
          some ⟨none, none, some 8⟩⟩)).next_states.getD 0 0 =
      ((fun _ _ => (⟨none, none, some 9, none, none,
          some ⟨none, none, some 8⟩⟩ : UpdateResult)) 0
        ((ExperienceReplay.mk [1] [2] [3] [4] [true] [⟨5, 6, 7⟩]).transition 0)).next_state.getD
        ((ExperienceReplay.mk [1] [2] [3] [4] [true] [⟨5, 6, 7⟩]).next_states.getD 0 0) ∧
    ((ExperienceReplay.mk [1] [2] [3] [4] [true] [⟨5, 6, 7⟩]).update
        (fun _ _ => ⟨none, none, some 9, none, none,
          some ⟨none, none, some 8⟩⟩)).dones.getD 0 false =
      ((fun _ _ => (⟨none, none, some 9, none, none,
          some ⟨none, none, some 8⟩⟩ : UpdateResult)) 0
        ((ExperienceReplay.mk [1] [2] [3] [4] [true] [⟨5, 6, 7⟩]).transition 0)).done.getD
        ((ExperienceReplay.mk [1] [2] [3] [4] [true] [⟨5, 6, 7⟩]).dones.getD 0 false) ∧
    ((ExperienceReplay.mk [1] [2] [3] [4] [true] [⟨5, 6, 7⟩]).update
        (fun _ _ => ⟨none, none, some 9, none, none,
          some ⟨none, none, some 8⟩⟩)).infos.getD 0 default =
      applyInfoUpdate
        ((ExperienceReplay.mk [1] [2] [3] [4] [true] [⟨5, 6, 7⟩]).infos.getD 0 default)
        ((fun _ _ => (⟨none, none, some 9, none, none,
          some ⟨none, none, some 8⟩⟩ : UpdateResult)) 0
          ((ExperienceReplay.mk [1] [2] [3] [4] [true] [⟨5, 6, 7⟩]).transition 0)).info) :=
  ⟨Nat.zero_lt_one,
    update_frame_property (ExperienceReplay.mk [1] [2] [3] [4] [true] [⟨5, 6, 7⟩])
      (fun _ _ => ⟨none, none, some 9, none, none, some ⟨none, none, some 8⟩⟩)
      0 Nat.zero_lt_one⟩

/-- C8: `sample` on a buffer holding zero Transitions fails with the
`EmptyBuffer` error, whatever the requested batch size and random index
source; the buffer itself is a value the pure `sample` never modifies. -/
theorem sample_empty_buffer_error (r : ExperienceReplay) (batch_size : ℕ)
    (pick : ℕ → ℕ) (h : r.length = 0) :
    r.sample batch_size pick = .error .emptyBuffer := by
  simp [ExperienceReplay.sample, h]

/-- Witness for C8: sampling 5 elements from a freshly constructed buffer. -/
theorem sample_empty_buffer_error_witness :
    ExperienceReplay.init.length = 0 ∧
    ExperienceReplay.init.sample 5 id = .error .emptyBuffer :=
  ⟨rfl, sample_empty_buffer_error ExperienceReplay.init 5 id rfl⟩

theorem length_utils_normalize (sqrt : ℚ → ℚ) (ε : ℚ) (xs : List ℚ) :
    (utils.normalize sqrt ε xs).length = xs.length := by
  unfold utils.normalize
  split <;> simp

theorem length_values (r : ExperienceReplay) : r.values.length = r.infos.length := by
  simp [ExperienceReplay.values]

/-- C9: after the PPO write-back, the stored reward at every valid index `i`
is the normalized generalized advantage at `i` plus the cached value at `i`,
and the stored info advantage at `i` is the normalized generalized advantage
at `i`. -/
theorem ppo_writeback_reward_and_advantage (γ τ ε : ℚ) (sqrt : ℚ → ℚ)
    (replay : ExperienceReplay) (nsv : ℚ) (h : replay.Aligned) (i : ℕ)
    (hi : i < replay.length) :
    (ppoWriteBack γ τ ε sqrt replay nsv).rewards.getD i 0 =
      (utils.normalize sqrt ε (generalized_advantage γ τ replay.rewards
          replay.dones replay.values nsv)).getD i 0 + replay.values.getD i 0 ∧
    ((ppoWriteBack γ τ ε sqrt replay nsv).infos.getD i default).advantage =
      (utils.normalize sqrt ε (generalized_advantage γ τ replay.rewards
          replay.dones replay.values nsv)).getD i 0 := by
  obtain ⟨h1, h2, h3, h4, h5⟩ := h
  have hlv : replay.values.length = replay.length := by
    rw [length_values]; exact h5
  have hla : (utils.normalize sqrt ε (generalized_advantage γ τ replay.rewards
      replay.dones replay.values nsv)).length = replay.length := by
    rw [length_utils_normalize, length_generalized_advantage, hlv, h2, h4]
    have : replay.length = replay.states.length := rfl
    omega
  constructor
  · simp only [ppoWriteBack, ExperienceReplay.update]
    rw [getD_range_map _ replay.length i _ hi]
    simp only [Option.getD_some]
    exact getD_zipWith_add _ _ i (by rw [hla]; exact hi) (by rw [hlv]; exact hi)
  · simp only [ppoWriteBack, ExperienceReplay.update]
    rw [getD_range_map _ replay.length i _ hi]
    simp [applyInfoUpdate]

/-- Witness for C9: a one-transition buffer, identity square root, γ = τ = 1,
ε = 1, bootstrap 0, index 0. -/
theorem ppo_writeback_reward_and_advantage_witness :
    (ExperienceReplay.mk [1] [2] [3] [4] [false] [⟨5, 6, 7⟩]).Aligned ∧
    (0 < (ExperienceReplay.mk [1] [2] [3] [4] [false] [⟨5, 6, 7⟩]).length) ∧
    ((ppoWriteBack 1 1 1 id (ExperienceReplay.mk [1] [2] [3] [4] [false]
          [⟨5, 6, 7⟩]) 0).rewards.getD 0 0 =
      (utils.normalize id 1 (generalized_advantage 1 1
          (ExperienceReplay.mk [1] [2] [3] [4] [false] [⟨5, 6, 7⟩]).rewards
          (ExperienceReplay.mk [1] [2] [3] [4] [false] [⟨5, 6, 7⟩]).dones
          (ExperienceReplay.mk [1] [2] [3] [4] [false] [⟨5, 6, 7⟩]).values
          0)).getD 0 0 +
        (ExperienceReplay.mk [1] [2] [3] [4] [false] [⟨5, 6, 7⟩]).values.getD 0 0 ∧
    ((ppoWriteBack 1 1 1 id (ExperienceReplay.mk [1] [2] [3] [4] [false]
          [⟨5, 6, 7⟩]) 0).infos.getD 0 default).advantage =
      (utils.normalize id 1 (generalized_advantage 1 1
          (ExperienceReplay.mk [1] [2] [3] [4] [false] [⟨5, 6, 7⟩]).rewards
          (ExperienceReplay.mk [1] [2] [3] [4] [false] [⟨5, 6, 7⟩]).dones
          (ExperienceReplay.mk [1] [2] [3] [4] [false] [⟨5, 6, 7⟩]).values
          0)).getD 0 0) :=
  ⟨⟨rfl, rfl, rfl, rfl, rfl⟩, Nat.zero_lt_one,
    ppo_writeback_reward_and_advantage 1 1 1 id
      (ExperienceReplay.mk [1] [2] [3] [4] [false] [⟨5, 6, 7⟩]) 0
      ⟨rfl, rfl, rfl, rfl, rfl⟩ 0 Nat.zero_lt_one⟩

/-- C10: the PPO update reads `next_states[-1]` first, so on a buffer with
zero Transitions it fails (no write-back is produced), while with at least
one stored Transition the bootstrap access always succeeds. -/
theorem ppo_update_requires_nonempty (γ τ ε : ℚ) (sqrt vf : ℚ → ℚ)
    (replay : ExperienceReplay) (h : replay.Aligned) :
    (replay.length = 0 → ppoUpdate γ τ ε sqrt vf replay = none) ∧
    (0 < replay.length → (ppoUpdate γ τ ε sqrt vf replay).isSome = true) := by
  obtain ⟨h1, h2, h3, h4, h5⟩ := h
  have hlen : replay.length = replay.states.length := rfl
  constructor
  · intro h0
    have hns : replay.next_states = [] := by
      apply List.length_eq_zero.mp
      omega
    simp [ppoUpdate, hns]
  · intro hpos
    have hns : replay.next_states ≠ [] := by
      intro hcon
      rw [hcon] at h3
      simp only [List.length_nil] at h3
      omega
    obtain ⟨s, hs⟩ := Option.isSome_iff_exists.mp (List.getLast?_isSome.mpr hns)
    simp [ppoUpdate, hs]

/-- Witness for C10: a one-transition aligned buffer, on which the second
implication applies with the bootstrap access succeeding. -/
theorem ppo_update_requires_nonempty_witness :
    (ExperienceReplay.mk [1] [2] [3] [4] [false] [⟨5, 6, 7⟩]).Aligned ∧
    (((ExperienceReplay.mk [1] [2] [3] [4] [false] [⟨5, 6, 7⟩]).length = 0 →
        ppoUpdate 1 1 1 id id
          (ExperienceReplay.mk [1] [2] [3] [4] [false] [⟨5, 6, 7⟩]) = none) ∧
      (0 < (ExperienceReplay.mk [1] [2] [3] [4] [false] [⟨5, 6, 7⟩]).length →
        (ppoUpdate 1 1 1 id id
          (ExperienceReplay.mk [1] [2] [3] [4] [false] [⟨5, 6, 7⟩])).isSome = true)) :=
  ⟨⟨rfl, rfl, rfl, rfl, rfl⟩,
    ppo_update_requires_nonempty 1 1 1 id id
      (ExperienceReplay.mk [1] [2] [3] [4] [false] [⟨5, 6, 7⟩])
      ⟨rfl, rfl, rfl, rfl, rfl⟩⟩
